import Mathlib

/-!
Verification of the client-side portfolio synchronization and validation logic
of the ChatGPT-Portfolio-Overhaul repository.

The JavaScript source is shallowly embedded: JavaScript numbers are modelled by
`JsNum` (NaN, ±Infinity, or an exact rational); the IEEE-754 rounding of finite
doubles is abstracted to exact rational arithmetic, matching the precision the
claims themselves use.  String primitives (`trim`, `toUpperCase`, `slice`,
`endsWith`) are re-implemented over `List Char` as ASCII models of their
JavaScript counterparts.  `new Date(...)` applied to an equity-history date is
modelled by `parseDay`, which accepts exactly the ISO `YYYY-MM-DD` layout the
backend emits (the comment in the source calls the field "'YYYY-MM-DD' in ET")
and yields an abstract day ordinal that is strictly monotone in calendar order;
all other strings are treated as an invalid date (NaN time value).
-/

namespace Portfolio

/-- Model of a JavaScript number: NaN, an infinity, or a finite value,
with finite values taken as exact rationals. -/
inductive JsNum where
  | nan
  | posInf
  | negInf
  | num (q : ℚ)
deriving DecidableEq, Repr

namespace JsNum

/-- Model of `Number.isFinite`. -/
def isFiniteB : JsNum → Bool
  | .num _ => true
  | _ => false

/-- Model of the JavaScript `<` comparison on numbers: any comparison
involving NaN is false; infinities compare in the usual way. -/
def ltB : JsNum → JsNum → Bool
  | .num a, .num b => a < b
  | .num _, .posInf => true
  | .negInf, .num _ => true
  | .negInf, .posInf => true
  | _, _ => false

/-- Model of the JavaScript `>` comparison on numbers. -/
def gtB (a b : JsNum) : Bool := ltB b a

/-- Model of the JavaScript `<=` comparison on numbers (false when NaN is involved). -/
def leB : JsNum → JsNum → Bool
  | .num a, .num b => a ≤ b
  | .num _, .posInf => true
  | .negInf, .num _ => true
  | .negInf, .posInf => true
  | .posInf, .posInf => true
  | .negInf, .negInf => true
  | _, _ => false

/-- Model of the JavaScript `>=` comparison on numbers. -/
def geB (a b : JsNum) : Bool := leB b a

end JsNum

/-- Characters considered whitespace, an ASCII model of the set trimmed by
`String.prototype.trim` and skipped by `parseFloat`. -/
def jsWs (c : Char) : Bool := c.isWhitespace

/-- Model of `String.prototype.trim`: strip whitespace from both ends. -/
def jsTrim (s : String) : String :=
  ⟨((s.toList.dropWhile jsWs).reverse.dropWhile jsWs).reverse⟩

/-- ASCII model of upper-casing one character. -/
def jsUpperChar (c : Char) : Char :=
  if 'a' ≤ c ∧ c ≤ 'z' then Char.ofNat (c.toNat - 32) else c

/-- ASCII model of `String.prototype.toUpperCase`. -/
def jsToUpper (s : String) : String := ⟨s.toList.map jsUpperChar⟩

/-- Model of `s.endsWith(c)` for a one-character suffix. -/
def jsEndsWithChar (s : String) (c : Char) : Bool := s.toList.getLast? = some c

/-- Model of `s.slice(0, -1)`: drop the final character. -/
def jsDropLast (s : String) : String := ⟨s.toList.dropLast⟩

/-- Model of `s.slice(0, 10)`: the first ten characters. -/
def jsTake10 (s : String) : String := ⟨s.toList.take 10⟩

/-- Numeric value of a decimal digit character. -/
def digitVal (c : Char) : ℕ := c.toNat - '0'.toNat

/-- Value of a list of decimal digit characters read in base 10. -/
def digitsToNat (ds : List Char) : ℕ := ds.foldl (fun a c => a * 10 + digitVal c) 0

/-- Token produced by scanning the front of a string the way `parseFloat` does:
either no numeric prefix (NaN), a signed `Infinity` literal, or a signed
decimal with integer digits, fraction digits and fraction length. -/
inductive FloatTok where
  | nan
  | inf (neg : Bool)
  | dec (neg : Bool) (ipart fpart flen : ℕ)
deriving DecidableEq, Repr

/-- Scanner for the `parseFloat` model: skip leading whitespace, read an
optional sign, then either an `Infinity` literal or the longest
`digits [. digits]` prefix.  Exponent suffixes are not modelled; none of the
inputs the claims exercise carry one. -/
def scanFloat (cs0 : List Char) : FloatTok :=
  let cs1 := cs0.dropWhile jsWs
  let (neg, cs) :=
    match cs1 with
    | '-' :: rest => (true, rest)
    | '+' :: rest => (false, rest)
    | _ => (false, cs1)
  if "Infinity".toList.isPrefixOf cs then .inf neg
  else
    let intDigits := cs.takeWhile Char.isDigit
    let rest := cs.dropWhile Char.isDigit
    let fracDigits :=
      match rest with
      | '.' :: r => r.takeWhile Char.isDigit
      | _ => []
    if intDigits.isEmpty ∧ fracDigits.isEmpty then .nan
    else .dec neg (digitsToNat intDigits) (digitsToNat fracDigits) fracDigits.length

/-- Model of JavaScript `parseFloat`. -/
def parseFloat (s : String) : JsNum :=
  match scanFloat s.toList with
  | .nan => .nan
  | .inf neg => if neg then .negInf else .posInf
  | .dec neg i f k =>
      .num ((if neg then (-1 : ℚ) else 1) * ((i : ℚ) + (f : ℚ) / (10 : ℚ) ^ k))

/-- Day ordinal of an ISO `YYYY-MM-DD` string, the model of
`new Date(dateStr)` for the equity-history date fields: `some` of an ordinal
that is strictly monotone in calendar order when the string is a plausible
ISO date, `none` (an invalid date, NaN time value) otherwise. -/
def parseDay (s : String) : Option ℕ :=
  let cs := s.toList
  if cs.length = 10 ∧
      ([0, 1, 2, 3, 5, 6, 8, 9].all fun i => (cs.getD i ' ').isDigit) ∧
      cs.getD 4 ' ' = '-' ∧ cs.getD 7 ' ' = '-' then
    let y := digitsToNat [cs.getD 0 ' ', cs.getD 1 ' ', cs.getD 2 ' ', cs.getD 3 ' ']
    let m := digitsToNat [cs.getD 5 ' ', cs.getD 6 ' ']
    let d := digitsToNat [cs.getD 8 ' ', cs.getD 9 ' ']
    if 1 ≤ m ∧ m ≤ 12 ∧ 1 ≤ d ∧ d ≤ 31 then some (y * 10000 + m * 100 + d) else none
  else none

/-- Day ordinal with invalid dates mapped to 0, used only under hypotheses
that rule the invalid case out. -/
def parseDayN (s : String) : ℕ := (parseDay s).getD 0

/-- Stable insertion of `x` into `l`: `x` is placed before the first element
it is strictly below, hence after every element it ties with.  This realizes
the placement a stable comparator sort gives a later-arriving element. -/
def insertBy (lt : α → α → Bool) (x : α) : List α → List α
  | [] => [x]
  | y :: ys => if lt x y then x :: y :: ys else y :: insertBy lt x ys

/-- Stable sort by the strict comparison `lt`, the model of
`Array.prototype.sort` with a numeric comparator: elements comparing equal
(which includes every pair involving a NaN comparator result) keep their
relative order. -/
def sortBy (lt : α → α → Bool) (l : List α) : List α :=
  l.foldl (fun acc x => insertBy lt x acc) []

/-- One raw row of the `/api/portfolio-history` payload, as consumed by
`loadEquityChart`: the `date` field (`none` models a non-string JSON value),
and the result of `Number(d.equity)`. -/
structure RawEntry where
  date : Option String
  equity : JsNum
deriving DecidableEq, Repr

/-- One chart point as built by the deduplicating `loadEquityChart`
(src/unnamed/part_002): `x` is the day string, `y` the finite equity. -/
structure Point where
  x : String
  y : ℚ
deriving DecidableEq, Repr

/-- Day key of a raw row, from part_002:
`typeof d.date === 'string' ? d.date.slice(0,10) : ''`. -/
def dayKey (e : RawEntry) : String :=
  match e.date with
  | some s => jsTake10 s
  | none => ""

/-- Model of `Map.prototype.set` on an insertion-ordered association list:
an existing key keeps its position and gets the new value, a new key is
appended. -/
def mapSet (m : List (String × ℚ)) (k : String) (v : ℚ) : List (String × ℚ) :=
  if m.any (fun p => p.1 = k) then
    m.map (fun p => if p.1 = k then (k, v) else p)
  else m ++ [(k, v)]

/-- One iteration of part_002's `for (const d of raw)` loop:
`if (day && Number.isFinite(val)) byDay.set(day, val)`. -/
def byDayStep (m : List (String × ℚ)) (e : RawEntry) : List (String × ℚ) :=
  match e.equity with
  | .num q => if dayKey e ≠ "" then mapSet m (dayKey e) q else m
  | _ => m

/-- The `byDay` map of part_002's `loadEquityChart`: rows with an empty day
key or a non-finite equity are dropped, and for each calendar-day key the
last occurrence in input order wins. -/
def byDay (raw : List RawEntry) : List (String × ℚ) := raw.foldl byDayStep []

/-- Strict chronological comparison of part_002 chart points, the model of
the comparator `(a, b) => new Date(a.x) - new Date(b.x)`: true exactly when
both dates are valid and `a` is strictly earlier.  A NaN comparator result is
treated as a tie, as `Array.prototype.sort` does. -/
def ptLt (a b : Point) : Bool :=
  match parseDay a.x, parseDay b.x with
  | some m, some n => m < n
  | _, _ => false

/-- The chart-point list built by part_002's `loadEquityChart` from a raw
`/api/portfolio-history` payload: filter and last-wins dedup by calendar-day
key, then sort ascending by date. -/
def loadPoints (raw : List RawEntry) : List Point :=
  sortBy ptLt ((byDay raw).map fun p => ⟨p.1, p.2⟩)

/-- One chart point as built by `portfolio_app/script.js`: `x` is the day of
`new Date(d.date + 'T00:00:00')` (`none` is an invalid date, which the filter
removes), `y` is `Number(d.equity)`. -/
structure DPoint where
  x : Option ℕ
  y : JsNum
deriving DecidableEq, Repr

/-- Date comparison of script.js chart points; after the filter both sides
are always valid dates. -/
def dptLt (a b : DPoint) : Bool :=
  match a.x, b.x with
  | some m, some n => m < n
  | _, _ => false

/-- The chart-point list built by `portfolio_app/script.js`'s
`loadEquityChart`: map each row to `{x: new Date(d.date + 'T00:00:00'),
y: Number(d.equity)}`, keep rows with a finite `y` and a valid date, and sort
ascending by date.  No same-day deduplication is performed.  Appending
`'T00:00:00'` to a valid `YYYY-MM-DD` string leaves its calendar day
unchanged, so the date model is `parseDay` again; a non-string `date` field
string-concatenates into an invalid date. -/
def loadPointsND (raw : List RawEntry) : List DPoint :=
  sortBy dptLt
    ((raw.map fun d =>
        DPoint.mk (match d.date with | some s => parseDay s | none => none) d.equity).filter
      fun p => p.y.isFiniteB && p.x.isSome)

/-- Replace the value of the first point whose day string equals `d`,
the model of `data[idx] = { x: dateStr, y }` after `findIndex`. -/
def replaceFirst (d : String) (y : ℚ) : List Point → List Point
  | [] => []
  | p :: ps => if p.x = d then ⟨d, y⟩ :: ps else p :: replaceFirst d y ps

/-- The series mutation of part_002's `upsertChartPoint` once a finite equity
and an existing chart are in hand: replace the point with the same calendar
day if present, otherwise push, then re-sort by date. -/
def upsertPoints (data : List Point) (dateStr : String) (y : ℚ) : List Point :=
  sortBy ptLt
    (if data.any fun p => p.x = dateStr then replaceFirst dateStr y data
     else data ++ [⟨dateStr, y⟩])

/-- Effect of a chart-series operation on the equity chart. -/
inductive ChartEffect where
  | unchanged
  | refetchHistory
  | patched (points : List Point)
deriving DecidableEq, Repr

/-- Model of part_002's `upsertChartPoint(dateStr, equity)`: a non-finite
equity is a silent no-op; with no chart instance it calls `loadEquityChart()`
(a full history refetch) and returns; otherwise it patches the series in
place. -/
def upsertChartPoint (chart : Option (List Point)) (dateStr : String) (equity : JsNum) :
    ChartEffect :=
  match equity with
  | .num y =>
      match chart with
      | none => .refetchHistory
      | some data => .patched (upsertPoints data dateStr y)
  | _ => .unchanged

/-- Chart-series decision of part_002's `handleProcess` after a successful
`/api/process-portfolio` response: when `data?.as_of_date_et` is truthy and
`data?.totals?.total_equity != null`, call
`upsertChartPoint(as_of_date_et, total_equity)`; otherwise refetch the whole
equity history.  `asOf` is the `as_of_date_et` field with `""` standing for
an absent or empty value; `totalEq` is the raw `totals.total_equity` field,
`none` when absent or null. -/
def handleProcessChart (chart : Option (List Point)) (asOf : String) (totalEq : Option JsNum) :
    ChartEffect :=
  if asOf ≠ "" ∧ totalEq.isSome then upsertChartPoint chart asOf (totalEq.getD .nan)
  else .refetchHistory

/-- Session-level side effects `ensureOk` can perform. -/
inductive SessionEffect where
  | clearToken
  | scheduleRedirect
deriving DecidableEq, Repr

/-- Session effects of `ensureOk(res, ...)` as a function of the response
status: an ok response (status 200-299) returns immediately; a 401 removes
the stored token and schedules the redirect to `/login` before throwing; any
other failure status just throws. -/
def ensureOkSessionEffects (status : ℕ) : List SessionEffect :=
  if 200 ≤ status ∧ status ≤ 299 then []
  else if status = 401 then [.clearToken, .scheduleRedirect]
  else []

/-- Outcome of one `fetch` as observed by `fetchJson`: the abort fired by the
timeout (or an explicit abort), a transport-level failure, an HTTP response
with a non-ok status, or an ok response carrying a parsed JSON payload. -/
inductive FetchOutcome (α : Type) where
  | aborted
  | transportError
  | httpError (status : ℕ)
  | ok (payload : α)

/-- Error message `fetchJson` produces for each failure outcome, from its
catch block: an `AbortError` becomes the timeout message, generic network
failures are reframed, and a non-ok response rethrows the `ensureOk` message
(whose exact text, built by `getErrorMessage` from the response body, is
abstracted here as the status it reports). -/
def fetchJsonError (url : String) : FetchOutcome α → Option String
  | .aborted => some ("Request timed out for " ++ url)
  | .transportError =>
      some "Could not reach the server. If your backend is running, check CORS/HTTPS settings and the route."
  | .httpError status => some ("Request failed for " ++ url ++ " (status " ++ toString status ++ ")")
  | .ok _ => none

/-- Result of `fetchJson`: the payload on success, the classified error
message otherwise. -/
def fetchJson (url : String) : FetchOutcome α → Except String α
  | .ok payload => .ok payload
  | o => .error ((fetchJsonError url o).getD "")

/-- Display state of the equity chart in `portfolio_app/script.js`: either
the no-data state (canvas hidden, message shown, instance destroyed) or a
chart backed by a point list. -/
inductive ChartState where
  | noData
  | chart (points : List DPoint)
deriving DecidableEq, Repr

/-- State transition of script.js's `loadEquityChart` for one fetch outcome:
on any error the catch block destroys the chart instance, hides the canvas
and shows "No data available"; on success the freshly built point list
replaces the data wholesale, with an empty list also yielding the no-data
state. -/
def loadEquityChartStep (_prev : ChartState) (o : FetchOutcome (List RawEntry)) : ChartState :=
  match fetchJson "/api/portfolio-history" o with
  | .error _ => .noData
  | .ok raw =>
      let points := loadPointsND raw
      if points.isEmpty then .noData else .chart points

/-- One row of the positions table rendered by script.js's `loadPortfolio`. -/
structure PositionRow where
  ticker : String
  shares : JsNum
  buy_price : JsNum
deriving DecidableEq, Repr

/-- Positions-table transition of script.js's `loadPortfolio`: on success the
table body is cleared and rebuilt from the payload; on any error the catch
block only shows an error message and the table keeps its previous rows. -/
def loadPortfolioRows (prev : List PositionRow) (o : FetchOutcome (List PositionRow)) :
    List PositionRow :=
  match fetchJson "/api/portfolio" o with
  | .error _ => prev
  | .ok positions => positions

/-- Normalized trade payload the submit handler would `POST /api/trade`. -/
structure TradePayload where
  ticker : String
  action : String
  price : JsNum
  shares : JsNum
  reason : String
  stop_loss : Option String
deriving DecidableEq, Repr

/-- Outcome of the trade-form submit handler's client-side validation. -/
inductive TradeOutcome where
  | rejectBasic
  | rejectStopAboveBuy
  | rejectInvalidStop
  | send (payload : TradePayload)
deriving DecidableEq, Repr

/-- The trade-form submit handler of script.js and part_002 up to the POST:
trim and upper-case the ticker, `parseFloat` price and shares, reject unless
ticker and action are truthy and price and shares are finite and positive;
then validate the optional stop loss: a value ending in `%` needs a finite
non-negative numeric part; an absolute value needs to be finite and
non-negative and, for a buy, strictly below the price
("Stop loss must be below the buy price."); anything else is
"Invalid stop loss value.".  On success the raw (trimmed) stop-loss string is
posted as `stop_loss`. -/
def tradeSubmit (tickerRaw action priceRaw sharesRaw reasonRaw stopRaw : String) :
    TradeOutcome :=
  let ticker := jsToUpper (jsTrim tickerRaw)
  let price := parseFloat priceRaw
  let shares := parseFloat sharesRaw
  let reason := jsTrim reasonRaw
  let stopLossInput := jsTrim stopRaw
  if ticker = "" ∨ action = "" ∨ ¬price.isFiniteB ∨ price.leB (.num 0)
      ∨ ¬shares.isFiniteB ∨ shares.leB (.num 0) then
    .rejectBasic
  else if stopLossInput ≠ "" then
    if jsEndsWithChar stopLossInput '%' then
      let val := parseFloat (jsDropLast stopLossInput)
      if val.isFiniteB ∧ val.geB (.num 0) then
        .send ⟨ticker, action, price, shares, reason, some stopLossInput⟩
      else .rejectInvalidStop
    else
      let val := parseFloat stopLossInput
      if val.isFiniteB ∧ val.geB (.num 0) then
        if val.geB price ∧ action = "buy" then .rejectStopAboveBuy
        else .send ⟨ticker, action, price, shares, reason, some stopLossInput⟩
      else .rejectInvalidStop
  else .send ⟨ticker, action, price, shares, reason, none⟩

/-- Scanner for the starting-cash prompt: the digits of a full-string match
of `/^\d+(\.\d+)?$/`, as integer part, fraction part and fraction length. -/
def cashScan (cs : List Char) : Option (ℕ × ℕ × ℕ) :=
  let intDigits := cs.takeWhile Char.isDigit
  let rest := cs.dropWhile Char.isDigit
  if intDigits.isEmpty then none
  else
    match rest with
    | [] => some (digitsToNat intDigits, 0, 0)
    | '.' :: frac =>
        if ¬frac.isEmpty ∧ frac.all Char.isDigit then
          some (digitsToNat intDigits, digitsToNat frac, frac.length)
        else none
    | _ => none

/-- Model of `/^\d+(\.\d+)?$/.test(trimmed) ? Number(trimmed) : NaN` from
`checkStartingCash`: the trimmed prompt input must be digits with an optional
fractional part, and then its decimal value is taken. -/
def cashAmount (input : String) : JsNum :=
  match cashScan (jsTrim input).toList with
  | some (i, f, k) => .num ((i : ℚ) + (f : ℚ) / (10 : ℚ) ^ k)
  | none => .nan

/-- The `do`/`while` prompt loop of `checkStartingCash`, driven by the
sequence of user answers (`none` is a cancelled prompt): returns the amount
posted to `/api/set-cash`, or `none` when the user cancels (the function
returns without posting).  An exhausted answer list means the loop is still
prompting, also `none`. -/
def cashPromptLoop : List (Option String) → Option ℚ
  | [] => none
  | none :: _ => none
  | some input :: rest =>
      match cashAmount input with
      | .num a => if a < 0 ∨ 10000 < a then cashPromptLoop rest else some a
      | _ => cashPromptLoop rest

/-- `checkStartingCash`: when the backend reports `needs_cash`, run the
prompt loop and post its result; otherwise no set-cash request is made.
The returned value is the `cash` field of the posted body, `none` when
nothing is posted. -/
def checkStartingCashPost (needsCash : Bool) (inputs : List (Option String)) : Option ℚ :=
  if needsCash then cashPromptLoop inputs else none

/-- The prompt loop of the legacy `checkStartingCash` in part_001
(lines 27-42): `amount = parseFloat(prompt('Enter starting cash (max
100000):'))`, repeated `while (isNaN(amount) || amount < 0 || amount >
100000)` — the accepted upper bound is 100000, not 10000, and the raw input
goes through `parseFloat` with no digits-only regex.  A parsed NaN retries,
+Infinity exceeds the bound and retries, -Infinity is negative and
retries. -/
def cashPromptLoop001 : List (Option String) → Option ℚ
  | [] => none
  | none :: _ => none
  | some input :: rest =>
      match parseFloat input with
      | .num a => if a < 0 ∨ 100000 < a then cashPromptLoop001 rest else some a
      | _ => cashPromptLoop001 rest

/-- JavaScript truthiness of a number: NaN and 0 are falsy. -/
def truthyNum : JsNum → Bool
  | .num q => q ≠ 0
  | .nan => false
  | _ => true

/-- Total-equity display update of `portfolio_app/script.js` `loadPortfolio`:
`if (data.total_equity != null)` — the display is set to the payload value
whenever the field is present, including 0.  The display state is the shown
value, `none` before anything was shown; the payload field is `none` when
absent or null. -/
def applyTotalEquityModern (prev : Option JsNum) (total_equity : Option JsNum) : Option JsNum :=
  match total_equity with
  | some v => some v
  | none => prev

/-- Total-equity display update of the legacy variants (part_001 line 102,
part_003 line 86): `if (data.total_equity)` — a falsy value, in particular
an equity of exactly 0, skips the update and the display keeps its previous
text. -/
def applyTotalEquityLegacy (prev : Option JsNum) (total_equity : Option JsNum) : Option JsNum :=
  match total_equity with
  | some v => if truthyNum v then some v else prev
  | none => prev

/-- One trade-log row as consumed by `loadTradeLog`: the `Action` field and
the `PnL` field in the string form `parseFloat` receives. -/
structure TradeLogItem where
  act : String
  pnl : String
deriving DecidableEq, Repr

/-- Number of rows counted by `sells++` (`item.Action === 'Sell'`). -/
def sellCount (trades : List TradeLogItem) : ℕ :=
  (trades.filter fun t => t.act == "Sell").length

/-- Number of wins counted by part_002's `loadTradeLog`: Sell rows whose
parsed PnL is finite and strictly positive. -/
def winCountFinite (trades : List TradeLogItem) : ℕ :=
  (trades.filter fun t =>
    t.act == "Sell" && (parseFloat t.pnl).isFiniteB && (parseFloat t.pnl).gtB (.num 0)).length

/-- Number of wins counted by part_001's `loadTradeLog`, which has no
`Number.isFinite` guard: Sell rows with `parseFloat(item.PnL) > 0`. -/
def winCountLoose (trades : List TradeLogItem) : ℕ :=
  (trades.filter fun t => t.act == "Sell" && (parseFloat t.pnl).gtB (.num 0)).length

/-- Model of `Math.round` on a finite value: round half away from zero is
`⌊x + 1/2⌋` for the non-negative values a win rate produces. -/
def jsRound (q : ℚ) : ℤ := ⌊q + 1/2⌋

/-- Win-rate text of part_002's `loadTradeLog`:
`sells ? Math.round((wins / sells) * 100) + '%' : '0%'` with the
finite-positive win count. -/
def winRateTextFinite (trades : List TradeLogItem) : String :=
  let sells := sellCount trades
  let wins := winCountFinite trades
  if sells ≠ 0 then toString (jsRound ((wins : ℚ) / (sells : ℚ) * 100)) ++ "%" else "0%"

/-- Win-rate text of part_001's `loadTradeLog`, identical except for the
missing finiteness guard on the PnL. -/
def winRateTextLoose (trades : List TradeLogItem) : String :=
  let sells := sellCount trades
  let wins := winCountLoose trades
  if sells ≠ 0 then toString (jsRound ((wins : ℚ) / (sells : ℚ) * 100)) ++ "%" else "0%"

/-- Win rate as the claim words it: `'0%'` when there are no Sell entries,
otherwise `round(100 * wins / sells)` percent with wins the Sell entries
carrying a finite positive PnL. -/
def winRateClaim (trades : List TradeLogItem) : String :=
  let sells := sellCount trades
  let wins := winCountFinite trades
  if sells = 0 then "0%" else toString (jsRound (100 * (wins : ℚ) / (sells : ℚ))) ++ "%"

/-- Bulk load as a state update on the part_002 chart series: the freshly
parsed, deduplicated and sorted point list replaces the previous content
wholesale (the old chart instance is destroyed and rebuilt). -/
def loadSeries (raw : List RawEntry) (_prev : List Point) : List Point := loadPoints raw

/-- Bulk load as a state update on the script.js chart series: the dataset's
point list is replaced wholesale. -/
def loadSeriesND (raw : List RawEntry) (_prev : List DPoint) : List DPoint := loadPointsND raw

/-! Supporting lemmas. -/

theorem mem_insertBy (lt : α → α → Bool) (x : α) (l : List α) (a : α) :
    a ∈ insertBy lt x l ↔ a = x ∨ a ∈ l := by
  induction l with
  | nil => simp [insertBy]
  | cons y ys ih =>
      simp only [insertBy]
      split
      · simp [or_assoc, or_comm, or_left_comm]
      · simp [ih, or_assoc, or_comm, or_left_comm]

theorem insertBy_perm (lt : α → α → Bool) (x : α) (l : List α) :
    (insertBy lt x l).Perm (x :: l) := by
  induction l with
  | nil => exact List.Perm.refl _
  | cons y ys ih =>
      simp only [insertBy]
      split
      · exact List.Perm.refl _
      · exact (ih.cons y).trans (List.Perm.swap x y ys)

theorem pairwise_insertBy {lt : α → α → Bool}
    (hasym : ∀ a b, lt a b = true → lt b a = false)
    (htrans : ∀ a b c, lt a b = true → lt b c = true → lt a c = true)
    (x : α) {l : List α} (hl : l.Pairwise fun a b => lt b a = false) :
    (insertBy lt x l).Pairwise fun a b => lt b a = false := by
  induction l with
  | nil => simp [insertBy]
  | cons y ys ih =>
      rw [List.pairwise_cons] at hl
      obtain ⟨hy, hys⟩ := hl
      simp only [insertBy]
      split
      · rename_i hxy
        refine List.pairwise_cons.mpr ⟨?_, List.pairwise_cons.mpr ⟨hy, hys⟩⟩
        intro z hz
        rcases List.mem_cons.mp hz with rfl | hz
        · exact hasym x z hxy
        · by_cases hzx : lt z x = true
          · exact absurd (htrans z x y hzx hxy) (by simp [hy z hz])
          · simpa using hzx
      · rename_i hxy
        refine List.pairwise_cons.mpr ⟨?_, ih hys⟩
        intro z hz
        rcases (mem_insertBy lt x ys z).mp hz with rfl | hz
        · exact Bool.of_not_eq_true hxy
        · exact hy z hz

theorem sortBy_perm (lt : α → α → Bool) (l : List α) : (sortBy lt l).Perm l := by
  have key : ∀ (l acc : List α),
      (l.foldl (fun acc x => insertBy lt x acc) acc).Perm (acc ++ l) := by
    intro l
    induction l with
    | nil => intro acc; simp
    | cons x xs ih =>
        intro acc
        exact (ih (insertBy lt x acc)).trans
          (((insertBy_perm lt x acc).append_right xs).trans List.perm_middle.symm)
  have h0 := key l []
  simpa [sortBy] using h0

theorem pairwise_sortBy {lt : α → α → Bool}
    (hasym : ∀ a b, lt a b = true → lt b a = false)
    (htrans : ∀ a b c, lt a b = true → lt b c = true → lt a c = true)
    (l : List α) :
    (sortBy lt l).Pairwise fun a b => lt b a = false := by
  have key : ∀ (l acc : List α), (acc.Pairwise fun a b => lt b a = false) →
      ((l.foldl (fun acc x => insertBy lt x acc) acc).Pairwise fun a b => lt b a = false) := by
    intro l
    induction l with
    | nil => intro acc h; exact h
    | cons x xs ih => intro acc h; exact ih _ (pairwise_insertBy hasym htrans x h)
  exact key l [] (List.Pairwise.nil)

theorem ptLt_asymm (a b : Point) : ptLt a b = true → ptLt b a = false := by
  unfold ptLt
  cases parseDay a.x <;> cases parseDay b.x <;> simp <;> omega

theorem ptLt_trans (a b c : Point) :
    ptLt a b = true → ptLt b c = true → ptLt a c = true := by
  unfold ptLt
  cases parseDay a.x <;> cases parseDay b.x <;> cases parseDay c.x <;> simp <;> omega

theorem dptLt_asymm (a b : DPoint) : dptLt a b = true → dptLt b a = false := by
  unfold dptLt
  cases a.x <;> cases b.x <;> simp <;> omega

theorem dptLt_trans (a b c : DPoint) :
    dptLt a b = true → dptLt b c = true → dptLt a c = true := by
  unfold dptLt
  cases a.x <;> cases b.x <;> cases c.x <;> simp <;> omega

theorem mapSet_keys_of_mem {m : List (String × ℚ)} {k : String} (v : ℚ)
    (h : m.any (fun p => p.1 = k) = true) :
    (mapSet m k v).map Prod.fst = m.map Prod.fst := by
  unfold mapSet
  rw [if_pos h, List.map_map]
  refine List.map_congr_left ?_
  intro p _
  by_cases hp : p.1 = k <;> simp [hp]

theorem mapSet_keys_nodup {m : List (String × ℚ)} {k : String} {v : ℚ}
    (h : (m.map Prod.fst).Nodup) : ((mapSet m k v).map Prod.fst).Nodup := by
  unfold mapSet
  split
  · rename_i hmem
    rw [List.map_map]
    have : (m.map fun p => (if p.1 = k then (k, v) else p).1) = m.map Prod.fst := by
      refine List.map_congr_left ?_
      intro p _
      by_cases hp : p.1 = k <;> simp [hp]
    rw [show ((fun p : String × ℚ => p.1) ∘ fun p => if p.1 = k then (k, v) else p)
        = fun p : String × ℚ => (if p.1 = k then (k, v) else p).1 from rfl, this]
    exact h
  · rename_i hmem
    rw [List.map_append]
    refine List.Nodup.append h (by simp) ?_
    intro a ha hb
    simp at hb
    subst hb
    rcases List.mem_map.mp ha with ⟨p, hp, hpk⟩
    exact hmem (List.any_eq_true.mpr ⟨p, hp, by simp [hpk]⟩)

theorem byDay_keys_nodup (raw : List RawEntry) : ((byDay raw).map Prod.fst).Nodup := by
  have key : ∀ (raw : List RawEntry) (m : List (String × ℚ)), (m.map Prod.fst).Nodup →
      ((raw.foldl byDayStep m).map Prod.fst).Nodup := by
    intro raw
    induction raw with
    | nil => intro m h; exact h
    | cons e rest ih =>
        intro m h
        refine ih _ ?_
        unfold byDayStep
        match e.equity with
        | .nan => exact h
        | .posInf => exact h
        | .negInf => exact h
        | .num q =>
            simp only
            split
            · exact mapSet_keys_nodup h
            · exact h
  exact key raw [] (by simp)

theorem loadPoints_keys_nodup (raw : List RawEntry) :
    ((loadPoints raw).map Point.x).Nodup := by
  unfold loadPoints
  refine (((sortBy_perm ptLt ((byDay raw).map fun p =>
    Point.mk p.1 p.2)).map Point.x).symm).nodup ?_
  rw [List.map_map]
  exact byDay_keys_nodup raw

theorem loadPoints_sorted (raw : List RawEntry) :
    (loadPoints raw).Pairwise fun a b => ptLt b a = false := by
  unfold loadPoints
  exact pairwise_sortBy ptLt_asymm ptLt_trans _

theorem isDigit_toNat {c : Char} (h : c.isDigit = true) :
    48 ≤ c.toNat ∧ c.toNat ≤ 57 := by
  simp [Char.isDigit] at h
  exact h

theorem digitVal_lt_ten {c : Char} (h : c.isDigit = true) : digitVal c < 10 := by
  have hb := isDigit_toNat h
  have h0 : '0'.toNat = 48 := rfl
  unfold digitVal
  omega

theorem digitChar_inj {c d : Char} (hc : c.isDigit = true) (hd : d.isDigit = true)
    (h : digitVal c = digitVal d) : c = d := by
  have hbc := isDigit_toNat hc
  have hbd := isDigit_toNat hd
  have h0 : '0'.toNat = 48 := rfl
  have hn : c.toNat = d.toNat := by unfold digitVal at h; omega
  have := congrArg Char.ofNat hn
  rwa [Char.ofNat_toNat, Char.ofNat_toNat] at this

theorem digitsToNat_two (a b : Char) :
    digitsToNat [a, b] = 10 * digitVal a + digitVal b := by
  simp [digitsToNat]
  ring

theorem digitsToNat_four (a b c d : Char) :
    digitsToNat [a, b, c, d] =
      1000 * digitVal a + 100 * digitVal b + 10 * digitVal c + digitVal d := by
  simp [digitsToNat]
  ring

theorem parseDay_some_elim {s : String} {n : ℕ} (h : parseDay s = some n) :
    (s.toList.length = 10 ∧
      ([0, 1, 2, 3, 5, 6, 8, 9].all fun i => (s.toList.getD i ' ').isDigit) = true ∧
      s.toList.getD 4 ' ' = '-' ∧ s.toList.getD 7 ' ' = '-') ∧
    (1 ≤ digitsToNat [s.toList.getD 5 ' ', s.toList.getD 6 ' '] ∧
      digitsToNat [s.toList.getD 5 ' ', s.toList.getD 6 ' '] ≤ 12 ∧
      1 ≤ digitsToNat [s.toList.getD 8 ' ', s.toList.getD 9 ' '] ∧
      digitsToNat [s.toList.getD 8 ' ', s.toList.getD 9 ' '] ≤ 31) ∧
    digitsToNat [s.toList.getD 0 ' ', s.toList.getD 1 ' ',
        s.toList.getD 2 ' ', s.toList.getD 3 ' '] * 10000 +
      digitsToNat [s.toList.getD 5 ' ', s.toList.getD 6 ' '] * 100 +
      digitsToNat [s.toList.getD 8 ' ', s.toList.getD 9 ' '] = n := by
  unfold parseDay at h
  dsimp only at h
  split_ifs at h with h1 h2
  exact ⟨h1, h2, Option.some.inj h⟩

theorem parseDay_inj {s t : String} {n : ℕ}
    (hs : parseDay s = some n) (ht : parseDay t = some n) : s = t := by
  obtain ⟨h1, h2, hs⟩ := parseDay_some_elim hs
  obtain ⟨h3, h4, ht⟩ := parseDay_some_elim ht
  obtain ⟨hlenS, hdigS, hd4S, hd7S⟩ := h1
  obtain ⟨hlenT, hdigT, hd4T, hd7T⟩ := h3
  simp only [List.all_cons, List.all_nil, Bool.and_eq_true, and_true] at hdigS hdigT
  obtain ⟨hS0, hS1, hS2, hS3, hS5, hS6, hS8, hS9⟩ := hdigS
  obtain ⟨hT0, hT1, hT2, hT3, hT5, hT6, hT8, hT9⟩ := hdigT
  rw [digitsToNat_four, digitsToNat_two, digitsToNat_two] at hs ht
  have dS0 := digitVal_lt_ten hS0
  have dS1 := digitVal_lt_ten hS1
  have dS2 := digitVal_lt_ten hS2
  have dS3 := digitVal_lt_ten hS3
  have dS5 := digitVal_lt_ten hS5
  have dS6 := digitVal_lt_ten hS6
  have dS8 := digitVal_lt_ten hS8
  have dS9 := digitVal_lt_ten hS9
  have dT0 := digitVal_lt_ten hT0
  have dT1 := digitVal_lt_ten hT1
  have dT2 := digitVal_lt_ten hT2
  have dT3 := digitVal_lt_ten hT3
  have dT5 := digitVal_lt_ten hT5
  have dT6 := digitVal_lt_ten hT6
  have dT8 := digitVal_lt_ten hT8
  have dT9 := digitVal_lt_ten hT9
  have e0 : digitVal (s.toList.getD 0 ' ') = digitVal (t.toList.getD 0 ' ') := by omega
  have e1 : digitVal (s.toList.getD 1 ' ') = digitVal (t.toList.getD 1 ' ') := by omega
  have e2 : digitVal (s.toList.getD 2 ' ') = digitVal (t.toList.getD 2 ' ') := by omega
  have e3 : digitVal (s.toList.getD 3 ' ') = digitVal (t.toList.getD 3 ' ') := by omega
  have e5 : digitVal (s.toList.getD 5 ' ') = digitVal (t.toList.getD 5 ' ') := by omega
  have e6 : digitVal (s.toList.getD 6 ' ') = digitVal (t.toList.getD 6 ' ') := by omega
  have e8 : digitVal (s.toList.getD 8 ' ') = digitVal (t.toList.getD 8 ' ') := by omega
  have e9 : digitVal (s.toList.getD 9 ' ') = digitVal (t.toList.getD 9 ' ') := by omega
  have hchars : ∀ (i : ℕ) (hiS : i < s.toList.length) (hiT : i < t.toList.length),
      s.toList[i] = t.toList[i] := by
    intro i hiS hiT
    have hgs : ∀ (j : ℕ) (hj : j < s.toList.length), s.toList.getD j ' ' = s.toList[j] :=
      fun j hj => List.getD_eq_getElem s.toList ' ' hj
    have hgt : ∀ (j : ℕ) (hj : j < t.toList.length), t.toList.getD j ' ' = t.toList[j] :=
      fun j hj => List.getD_eq_getElem t.toList ' ' hj
    have hi10 : i < 10 := by omega
    interval_cases i
    · rw [← hgs 0 hiS, ← hgt 0 hiT]; exact digitChar_inj hS0 hT0 e0
    · rw [← hgs 1 hiS, ← hgt 1 hiT]; exact digitChar_inj hS1 hT1 e1
    · rw [← hgs 2 hiS, ← hgt 2 hiT]; exact digitChar_inj hS2 hT2 e2
    · rw [← hgs 3 hiS, ← hgt 3 hiT]; exact digitChar_inj hS3 hT3 e3
    · rw [← hgs 4 hiS, ← hgt 4 hiT, hd4S, hd4T]
    · rw [← hgs 5 hiS, ← hgt 5 hiT]; exact digitChar_inj hS5 hT5 e5
    · rw [← hgs 6 hiS, ← hgt 6 hiT]; exact digitChar_inj hS6 hT6 e6
    · rw [← hgs 7 hiS, ← hgt 7 hiT, hd7S, hd7T]
    · rw [← hgs 8 hiS, ← hgt 8 hiT]; exact digitChar_inj hS8 hT8 e8
    · rw [← hgs 9 hiS, ← hgt 9 hiT]; exact digitChar_inj hS9 hT9 e9
  have hlist : s.toList = t.toList := List.ext_getElem (by omega) hchars
  have : s.data = t.data := hlist
  cases s
  cases t
  exact congrArg String.mk this

theorem loadPoints_strictMono (raw : List RawEntry)
    (hall : ∀ p ∈ loadPoints raw, (parseDay p.x).isSome = true) :
    (loadPoints raw).Pairwise fun a b => parseDayN a.x < parseDayN b.x := by
  have hsorted := loadPoints_sorted raw
  have hkeys : (loadPoints raw).Pairwise fun a b => a.x ≠ b.x :=
    List.pairwise_map.mp (loadPoints_keys_nodup raw)
  refine (hsorted.and hkeys).imp_of_mem ?_
  intro a b ha hb hab
  obtain ⟨hlt, hne⟩ := hab
  obtain ⟨na, hna⟩ := Option.isSome_iff_exists.mp (hall a ha)
  obtain ⟨nb, hnb⟩ := Option.isSome_iff_exists.mp (hall b hb)
  have hle : ¬ nb < na := by
    intro hcon
    unfold ptLt at hlt
    rw [hnb, hna] at hlt
    simp at hlt
    omega
  have hneq : na ≠ nb := by
    intro h
    exact hne (parseDay_inj hna (by rw [hnb, h]))
  unfold parseDayN
  rw [hna, hnb]
  simp only [Option.getD_some]
  omega

/-- Evaluation helper: `parseFloat` of a string scanning to an unsigned
decimal token. -/
theorem parseFloat_dec (s : String) (i f k : ℕ)
    (h : scanFloat s.toList = .dec false i f k) :
    parseFloat s = .num ((i : ℚ) + (f : ℚ) / (10 : ℚ) ^ k) := by
  unfold parseFloat
  rw [h]
  simp

/-- Evaluation helper: `parseFloat` of a string scanning to `Infinity`. -/
theorem parseFloat_inf (s : String) (h : scanFloat s.toList = .inf false) :
    parseFloat s = .posInf := by
  unfold parseFloat
  rw [h]
  rfl

/-- Evaluation helper: `cashAmount` of an input whose trimmed form matches
the cash regex. -/
theorem cashAmount_num (input : String) (i f k : ℕ)
    (h : cashScan (jsTrim input).toList = some (i, f, k)) :
    cashAmount input = .num ((i : ℚ) + (f : ℚ) / (10 : ℚ) ^ k) := by
  unfold cashAmount
  rw [h]

/-! Claim theorems. -/

/-- C1 counterexample: the `portfolio_app/script.js` realization of the
equity-series bulk load performs no same-day deduplication, so a payload with
two rows for the same calendar day yields a point list in which that day
appears twice — the loaded series does not have strictly increasing dates. -/
theorem c1_counterexample :
    ¬ ((loadPointsND
        [⟨some "2024-01-02", .num 100⟩, ⟨some "2024-01-02", .num 105⟩]).map DPoint.x).Nodup := by
  decide

/-- C1 (amended): for the deduplicating realization of the bulk load
(part_002's `loadEquityChart`), every result has pairwise distinct
calendar-day keys, and whenever all kept day keys are valid dates the
resulting sequence is strictly increasing by date. -/
theorem c1_load_strict_increasing (raw : List RawEntry) :
    ((loadPoints raw).map Point.x).Nodup ∧
    ((∀ p ∈ loadPoints raw, (parseDay p.x).isSome = true) →
      (loadPoints raw).Pairwise fun a b => parseDayN a.x < parseDayN b.x) :=
  ⟨loadPoints_keys_nodup raw, loadPoints_strictMono raw⟩

/-- C1 witness: the amended theorem applied to a concrete three-row payload
with a same-day duplicate. -/
theorem c1_witness :
    ((loadPoints
        [⟨some "2024-01-02", .num 100⟩, ⟨some "2024-01-02", .num 105⟩,
          ⟨some "2024-01-01", .num 90⟩]).map Point.x).Nodup ∧
    (loadPoints
        [⟨some "2024-01-02", .num 100⟩, ⟨some "2024-01-02", .num 105⟩,
          ⟨some "2024-01-01", .num 90⟩]).Pairwise
      (fun a b => parseDayN a.x < parseDayN b.x) :=
  ⟨(c1_load_strict_increasing _).1,
    (c1_load_strict_increasing
      [⟨some "2024-01-02", .num 100⟩, ⟨some "2024-01-02", .num 105⟩,
        ⟨some "2024-01-01", .num 90⟩]).2 (by decide)⟩

/-- C2 counterexample: on the example payload the `portfolio_app/script.js`
realization keeps all three rows (day 20240102 twice), so the bulk load does
not produce the claimed two-point series there. -/
theorem c2_counterexample :
    loadPointsND
        [⟨some "2024-01-02", .num 100⟩, ⟨some "2024-01-02", .num 105⟩,
          ⟨some "2024-01-01", .num 90⟩] =
      [⟨some 20240101, .num 90⟩, ⟨some 20240102, .num 100⟩, ⟨some 20240102, .num 105⟩] := by
  decide

/-- C2 (amended): the deduplicating realization (part_002's
`loadEquityChart`) groups same-day duplicates keeping the last occurrence in
input order and sorts ascending by date:
`[{2024-01-02,100}, {2024-01-02,105}, {2024-01-01,90}]` loads to exactly
`[{2024-01-01,90}, {2024-01-02,105}]`. -/
theorem c2_load_last_wins_sorted :
    loadPoints
        [⟨some "2024-01-02", .num 100⟩, ⟨some "2024-01-02", .num 105⟩,
          ⟨some "2024-01-01", .num 90⟩] =
      [⟨"2024-01-01", 90⟩, ⟨"2024-01-02", 105⟩] := by
  decide

/-- C3 counterexample: a successful process-portfolio response that does
carry the explicit `(date, equity)` pair is still answered with a full
equity-history refetch when no chart instance exists —
`upsertChartPoint` falls back to `loadEquityChart()` — contradicting the
claim that a carried pair is always applied by a single upsert with no full
refetch. -/
theorem c3_counterexample :
    handleProcessChart none "2024-06-03" (some (.num 100)) = .refetchHistory := by
  decide

/-- C3 (amended): after a successful process-portfolio response, when the
response carries the pair (truthy `as_of_date_et`, non-null finite
`totals.total_equity`) and a chart series exists, the series is patched by a
single upsert of that pair and no refetch happens; when the response does
not carry the pair, a full history refetch is performed; when no chart
instance exists the code refetches even if a finite pair is present; a
present but non-numeric equity leaves the chart untouched. -/
theorem c3_process_upsert_or_refetch (pts : List Point) (asOf : String) (q : ℚ)
    (teq : Option JsNum) (h : asOf ≠ "") :
    handleProcessChart (some pts) asOf (some (.num q)) =
      .patched (upsertPoints pts asOf q) ∧
    handleProcessChart (some pts) "" teq = .refetchHistory ∧
    handleProcessChart (some pts) asOf none = .refetchHistory ∧
    handleProcessChart none asOf (some (.num q)) = .refetchHistory ∧
    handleProcessChart none asOf none = .refetchHistory ∧
    handleProcessChart (some pts) asOf (some .nan) = .unchanged := by
  refine ⟨?_, ?_, ?_, ?_, ?_, ?_⟩
  · simp [handleProcessChart, h, upsertChartPoint]
  · simp [handleProcessChart]
  · simp [handleProcessChart]
  · simp [handleProcessChart, h, upsertChartPoint]
  · simp [handleProcessChart]
  · simp [handleProcessChart, h, upsertChartPoint]

/-- C3 witness: the amended theorem at a concrete response and chart. -/
theorem c3_witness :
    handleProcessChart (some [⟨"2024-06-02", 95⟩]) "2024-06-03" (some (.num 100)) =
      .patched (upsertPoints [⟨"2024-06-02", 95⟩] "2024-06-03" 100) ∧
    handleProcessChart (some [⟨"2024-06-02", 95⟩]) "" none = .refetchHistory ∧
    handleProcessChart (some [⟨"2024-06-02", 95⟩]) "2024-06-03" none = .refetchHistory ∧
    handleProcessChart none "2024-06-03" (some (.num 100)) = .refetchHistory ∧
    handleProcessChart none "2024-06-03" none = .refetchHistory ∧
    handleProcessChart (some [⟨"2024-06-02", 95⟩]) "2024-06-03" (some .nan) = .unchanged :=
  c3_process_upsert_or_refetch [⟨"2024-06-02", 95⟩] "2024-06-03" 100 none (by decide)

/-- C4: for an absolute-form (non-percentage) stop loss that parses to a
finite value at or above the price: a buy is rejected with the
stop-loss-above-buy-price reason and nothing is sent, while a sell with the
very same inputs performs no such comparison and is accepted with the
stop-loss value included in the payload. -/
theorem c4_stop_loss_buy_sell (tickerRaw priceRaw sharesRaw reasonRaw stopRaw : String)
    (pq sq vq : ℚ)
    (hticker : jsToUpper (jsTrim tickerRaw) ≠ "")
    (hprice : parseFloat priceRaw = .num pq) (hpq : 0 < pq)
    (hshares : parseFloat sharesRaw = .num sq) (hsq : 0 < sq)
    (hstop : jsTrim stopRaw ≠ "")
    (habs : jsEndsWithChar (jsTrim stopRaw) '%' = false)
    (hval : parseFloat (jsTrim stopRaw) = .num vq) (hv0 : 0 ≤ vq) (hge : pq ≤ vq) :
    tradeSubmit tickerRaw "buy" priceRaw sharesRaw reasonRaw stopRaw = .rejectStopAboveBuy ∧
    tradeSubmit tickerRaw "sell" priceRaw sharesRaw reasonRaw stopRaw =
      .send ⟨jsToUpper (jsTrim tickerRaw), "sell", .num pq, .num sq, jsTrim reasonRaw,
        some (jsTrim stopRaw)⟩ := by
  constructor
  · simp [tradeSubmit, hprice, hshares, hval, habs, hticker, hstop,
      JsNum.isFiniteB, JsNum.leB, JsNum.geB, hpq.not_le, hsq.not_le, hge, hv0]
  · simp [tradeSubmit, hprice, hshares, hval, habs, hticker, hstop,
      JsNum.isFiniteB, JsNum.leB, JsNum.geB, hpq.not_le, hsq.not_le, hge, hv0]

/-- C4 witness: the spec's concrete example, price 10, shares 5, stop loss
"12": buy is rejected with the stop-above-buy-price reason, sell is accepted
with `stop_loss` posted. -/
theorem c4_witness :
    tradeSubmit "abc" "buy" "10" "5" "risk" "12" = .rejectStopAboveBuy ∧
    tradeSubmit "abc" "sell" "10" "5" "risk" "12" =
      .send ⟨"ABC", "sell", .num 10, .num 5, "risk", some "12"⟩ := by
  have h10 : parseFloat "10" = .num 10 := by
    rw [parseFloat_dec "10" 10 0 0 (by decide)]; norm_num
  have h5 : parseFloat "5" = .num 5 := by
    rw [parseFloat_dec "5" 5 0 0 (by decide)]; norm_num
  have h12 : parseFloat (jsTrim "12") = .num 12 := by
    rw [show jsTrim "12" = "12" from by decide]
    rw [parseFloat_dec "12" 12 0 0 (by decide)]; norm_num
  have h := c4_stop_loss_buy_sell "abc" "10" "5" "risk" "12" 10 5 12
    (by decide) h10 (by norm_num) h5 (by norm_num) (by decide) (by decide)
    h12 (by norm_num) (by norm_num)
  rw [show jsToUpper (jsTrim "abc") = "ABC" from by decide,
    show jsTrim "risk" = "risk" from by decide,
    show jsTrim "12" = "12" from by decide] at h
  exact h

/-- C5: a 401 status is the only status for which `ensureOk` clears the
stored session token and schedules the redirect to login; a 401 performs
each of the two session effects exactly once, and every other status
performs neither. -/
theorem c5_unauthorized_only (status : ℕ) :
    (ensureOkSessionEffects status).count SessionEffect.clearToken =
      (if status = 401 then 1 else 0) ∧
    (ensureOkSessionEffects status).count SessionEffect.scheduleRedirect =
      (if status = 401 then 1 else 0) := by
  by_cases h : status = 401
  · subst h; decide
  · unfold ensureOkSessionEffects
    split_ifs with h1 <;> simp [h]

/-- C6 counterexample: a timed-out (aborted) equity-history request does not
leave the chart unchanged — the catch block of script.js's
`loadEquityChart` destroys the chart instance and shows the no-data state,
clobbering the previously displayed series. -/
theorem c6_counterexample :
    loadEquityChartStep (.chart [⟨some 20240101, .num 100⟩]) .aborted = .noData ∧
    ChartState.noData ≠ ChartState.chart [⟨some 20240101, .num 100⟩] := by
  decide

/-- C6 (amended): a request whose response does not arrive within its
timeout (an aborted fetch) fails with the timeout message; its result is
discarded — no payload is merged and the positions table keeps its previous
rows — but the equity-chart failure handler resets the chart to the no-data
state rather than leaving the displayed series unchanged. -/
theorem c6_timeout_discard (url : String) (prevRows : List PositionRow)
    (prevChart : ChartState) :
    fetchJson url (.aborted : FetchOutcome (List RawEntry)) =
      .error ("Request timed out for " ++ url) ∧
    loadPortfolioRows prevRows .aborted = prevRows ∧
    loadEquityChartStep prevChart .aborted = .noData :=
  ⟨rfl, rfl, rfl⟩

/-- C7 counterexample: the legacy prompt loop of part_001 accepts any amount
up to 100000, so the answer "50000" is posted as the set-cash value even
though 50000 lies outside the claimed interval [0, 10000]. -/
theorem c7_counterexample :
    cashPromptLoop001 [some "50000"] = some 50000 ∧ ¬((50000 : ℚ) ≤ 10000) := by
  constructor
  · have h : parseFloat "50000" = .num 50000 := by
      rw [parseFloat_dec "50000" 50000 0 0 (by decide)]; norm_num
    rw [cashPromptLoop001, h]
    dsimp only
    rw [if_neg (by norm_num)]
  · norm_num

/-- C7 (amended): in the script.js realization, whenever the starting-cash
flow posts a set-cash request the posted amount lies within the closed
interval [0, 10000], and a cancelled prompt exits the loop with no set-cash
request posted; the legacy part_001 realization enforces the wider interval
[0, 100000] instead. -/
theorem c7_cash_bounds (needsCash : Bool) (inputs : List (Option String)) :
    (∀ a : ℚ, checkStartingCashPost needsCash inputs = some a → 0 ≤ a ∧ a ≤ 10000) ∧
    (∀ rest : List (Option String), checkStartingCashPost needsCash (none :: rest) = none) ∧
    (∀ a : ℚ, cashPromptLoop001 inputs = some a → 0 ≤ a ∧ a ≤ 100000) ∧
    (∀ rest : List (Option String), cashPromptLoop001 (none :: rest) = none) := by
  refine ⟨?_, ?_, ?_, fun rest => rfl⟩
  rotate_right
  · intro a h
    induction inputs with
    | nil => simp [cashPromptLoop001] at h
    | cons i rest ih =>
        match i with
        | none => simp [cashPromptLoop001] at h
        | some input =>
            rw [cashPromptLoop001] at h
            match hca : parseFloat input with
            | .nan => rw [hca] at h; exact ih h
            | .posInf => rw [hca] at h; exact ih h
            | .negInf => rw [hca] at h; exact ih h
            | .num q =>
                rw [hca] at h
                dsimp only at h
                split_ifs at h with hr
                · exact ih h
                · push_neg at hr
                  obtain rfl : q = a := Option.some.inj h
                  exact ⟨hr.1, hr.2⟩
  · intro a h
    have key : ∀ (l : List (Option String)) (a : ℚ), cashPromptLoop l = some a →
        0 ≤ a ∧ a ≤ 10000 := by
      intro l
      induction l with
      | nil => intro a h0; simp [cashPromptLoop] at h0
      | cons i rest ih =>
          intro a h0
          match i with
          | none => simp [cashPromptLoop] at h0
          | some input =>
              rw [cashPromptLoop] at h0
              match hca : cashAmount input with
              | .nan => rw [hca] at h0; exact ih a h0
              | .posInf => rw [hca] at h0; exact ih a h0
              | .negInf => rw [hca] at h0; exact ih a h0
              | .num q =>
                  rw [hca] at h0
                  dsimp only at h0
                  split_ifs at h0 with hr
                  · exact ih a h0
                  · push_neg at hr
                    obtain rfl : q = a := Option.some.inj h0
                    exact ⟨hr.1, hr.2⟩
    unfold checkStartingCashPost at h
    split_ifs at h with hn
    exact key inputs a h
  · intro rest
    unfold checkStartingCashPost
    split_ifs with hn
    · rfl
    · rfl

/-- C7 witness: with `needs_cash` set and answers "abc" (rejected),
"50000" (out of range), " 250.5 " (accepted), the posted amount 250.5 lies
within [0, 10000]. -/
theorem c7_witness : (0 : ℚ) ≤ 501 / 2 ∧ (501 / 2 : ℚ) ≤ 10000 := by
  have e1 : cashAmount "abc" = .nan := by
    unfold cashAmount
    rw [show cashScan (jsTrim "abc").toList = none from by decide]
  have e2 : cashAmount "50000" = .num 50000 := by
    rw [cashAmount_num "50000" 50000 0 0 (by decide)]; norm_num
  have e3 : cashAmount " 250.5 " = .num (501 / 2) := by
    rw [cashAmount_num " 250.5 " 250 5 1 (by decide)]; norm_num
  have heval : checkStartingCashPost true [some "abc", some "50000", some " 250.5 "] =
      some (501 / 2) := by
    unfold checkStartingCashPost
    rw [if_pos rfl]
    simp only [cashPromptLoop, e1, e2, e3]
    norm_num
  exact (c7_cash_bounds true [some "abc", some "50000", some " 250.5 "]).1 (501 / 2) heval

/-- C8: the bulk load is idempotent in both realizations: loading the same
raw payload twice leaves the same series as loading it once, because the
parse/dedup/sort pipeline is a pure function of the payload and replaces the
series wholesale. -/
theorem c8_load_idempotent (raw : List RawEntry) (prev : List Point) (prevND : List DPoint) :
    loadSeries raw (loadSeries raw prev) = loadSeries raw prev ∧
    loadSeriesND raw (loadSeriesND raw prevND) = loadSeriesND raw prevND :=
  ⟨rfl, rfl⟩

/-- C9: evaluation at the failing input — a portfolio payload whose
`total_equity` is exactly 0 while the display shows an older value: the
legacy truthiness check (part_001, part_003) skips the update and keeps the
stale value, whereas the `!= null` check of portfolio_app/script.js updates
the display to 0 as the claim requires. -/
theorem c9_zero_equity :
    applyTotalEquityLegacy (some (.num 100)) (some (.num 0)) = some (.num 100) ∧
    applyTotalEquityModern (some (.num 100)) (some (.num 0)) = some (.num 0) := by
  decide

/-- C10 counterexample: the part_001 win-rate display lacks the finiteness
guard, so a Sell row whose PnL parses to Infinity is counted as a win: the
display shows "100%" where the claimed formula (wins = Sell entries with
finite positive PnL) yields "0%". -/
theorem c10_counterexample :
    winRateTextLoose [⟨"Sell", "Infinity"⟩] = "100%" ∧
    winRateClaim [⟨"Sell", "Infinity"⟩] = "0%" := by
  have h : parseFloat "Infinity" = .posInf := parseFloat_inf "Infinity" (by decide)
  constructor
  · have hw : winCountLoose [(⟨"Sell", "Infinity"⟩ : TradeLogItem)] = 1 := by
      simp [winCountLoose, h, JsNum.gtB, JsNum.ltB]
    have hs : sellCount [(⟨"Sell", "Infinity"⟩ : TradeLogItem)] = 1 := by decide
    simp [winRateTextLoose, hs, hw]
    rw [show jsRound (100 : ℚ) = 100 from by norm_num [jsRound, Int.floor_eq_iff]]
    decide
  · have hw : winCountFinite [(⟨"Sell", "Infinity"⟩ : TradeLogItem)] = 0 := by
      simp [winCountFinite, h, JsNum.isFiniteB]
    have hs : sellCount [(⟨"Sell", "Infinity"⟩ : TradeLogItem)] = 1 := by decide
    simp [winRateClaim, hs, hw]
    rw [show jsRound (0 : ℚ) = 0 from by norm_num [jsRound, Int.floor_eq_iff]]
    decide

/-- C10 (amended): the part_002 win-rate display satisfies the claim exactly
on every trade-log payload: '0%' when there is no Sell entry, otherwise
`round(100 * wins / sells)` percent with wins the Sell entries carrying a
finite positive parsed PnL. -/
theorem c10_win_rate (trades : List TradeLogItem) :
    winRateTextFinite trades = winRateClaim trades := by
  unfold winRateTextFinite winRateClaim
  by_cases h : sellCount trades = 0
  · simp [h]
  · rw [if_pos h, if_neg h,
      show ((winCountFinite trades : ℚ) / (sellCount trades : ℚ) * 100) =
        100 * (winCountFinite trades : ℚ) / (sellCount trades : ℚ) from by ring]

end Portfolio
